import Mathlib

/-!
# Shallow embedding of the Medusir 3.2 backend predictive engine (src/backend.js)

Numbers are embedded as rationals (`ℚ`); digits as `Fin 10`.  JavaScript's
`Array.prototype.sort` with comparator `(a, b) => b.score - a.score` is a
stable descending sort; it is embedded as `List.insertionSort` with the
relation `b.score ≤ a.score`, which is stable and descending.
NaN propagation (needed for the error-handling claim about `handleTick`,
which has no finiteness guard in the source) is embedded by the type `JVal`:
a rational or NaN, with NaN absorbing under the arithmetic the filter uses.
-/

namespace Medusir

/-- Constant `ANALYSIS_TICKS = 100` (src/backend.js line 15). -/
def ANALYSIS_TICKS : ℕ := 100

/-- Constant `STABILITY_ANALYSIS_TICKS = 150` (src/backend.js line 16). -/
def STABILITY_ANALYSIS_TICKS : ℕ := 150

/-- Constant `KALMAN_R = 0.01` (src/backend.js line 18). -/
def KALMAN_R : ℚ := 1/100

/-- Constant `KALMAN_Q = 0.1` (src/backend.js line 18). -/
def KALMAN_Q : ℚ := 1/10

/-- Constant `CERTAINTY_THRESHOLD = 1.5` (src/backend.js line 19). -/
def CERTAINTY_THRESHOLD : ℚ := 3/2

/-- The three scoring models, in the order they appear in the source arrays. -/
inductive Model : Type
  | ldf
  | recency
  | pf
deriving DecidableEq, Repr

instance : Inhabited Model := ⟨Model.ldf⟩

/-- Per-instrument weight triple `{ldf, recency, pf}` (src/backend.js line 22). -/
structure Weights : Type where
  ldf : ℚ
  recency : ℚ
  pf : ℚ
deriving DecidableEq, Repr

/-- Constant `INITIAL_WEIGHTS = { ldf: 1.0, recency: 1.0, pf: 1.0 }` (line 22). -/
def INITIAL_WEIGHTS : Weights := ⟨1, 1, 1⟩

/-- Field access on a weight triple by model label. -/
def Weights.get (w : Weights) : Model → ℚ
  | Model.ldf => w.ldf
  | Model.recency => w.recency
  | Model.pf => w.pf

/-- Update one field of a weight triple by model label. -/
def Weights.set (w : Weights) : Model → ℚ → Weights
  | Model.ldf, x => { w with ldf := x }
  | Model.recency, x => { w with recency := x }
  | Model.pf, x => { w with pf := x }

/-- The invariant claimed by the spec: every weight lies in `[0.5, 2.0]`. -/
def WeightsInBounds (w : Weights) : Prop :=
  (1/2 ≤ w.ldf ∧ w.ldf ≤ 2) ∧ (1/2 ≤ w.recency ∧ w.recency ≤ 2) ∧
    (1/2 ≤ w.pf ∧ w.pf ≤ 2)

instance : DecidablePred WeightsInBounds := fun w => by
  unfold WeightsInBounds; infer_instance

/-! ## Scoring models (src/backend.js lines 199–225) -/

/-- The counts array of `getLDFScores`: `counts[d]` = occurrences of digit `d`
(src/backend.js lines 200–201). -/
def ldfCounts (digits : List (Fin 10)) (d : Fin 10) : ℕ :=
  digits.count d

/-- Maximum `Math.max(...counts)` over the ten counts (src/backend.js line 202). -/
def ldfMaxCount (digits : List (Fin 10)) : ℕ :=
  Finset.univ.sup (fun d : Fin 10 => ldfCounts digits d)

/-- Function `getLDFScores` (src/backend.js lines 199–204):
`score[d] = (maxCount - counts[d]) * 1.5`. -/
def getLDFScores (digits : List (Fin 10)) (d : Fin 10) : ℚ :=
  ((ldfMaxCount digits : ℚ) - (ldfCounts digits d : ℚ)) * (3/2)

/-- The index of the last occurrence of `d` in `digits`, counted from the
head, or `none` when `d` does not occur; embeds `digits.lastIndexOf(d)`
(src/backend.js line 209), with `none` for JavaScript's `-1`. -/
def lastIdx : List (Fin 10) → Fin 10 → Option ℕ
  | [], _ => none
  | a :: t, d =>
      match lastIdx t d with
      | some j => some (j + 1)
      | none => if a = d then some 0 else none

/-- Function `getRecencyScores` (src/backend.js lines 206–213):
`score[d] = lastSeen === -1 ? ANALYSIS_TICKS : digits.length - 1 - lastSeen`. -/
def getRecencyScores (digits : List (Fin 10)) (d : Fin 10) : ℚ :=
  match lastIdx digits d with
  | none => (ANALYSIS_TICKS : ℚ)
  | some j => ((digits.length : ℤ) - 1 - (j : ℤ) : ℤ)

/-- Transition counts of `getPairingFrequencyScores` (src/backend.js lines
216–222): the number of positions `i < length - 1` with `digits[i] = last`
and `digits[i+1] = d`, where `last` is the final digit; all counts are `0`
on the empty list (the loop body never fires when `last` is `undefined`). -/
def transitionCounts (digits : List (Fin 10)) (d : Fin 10) : ℕ :=
  match digits.getLast? with
  | none => 0
  | some last =>
      ((digits.zip digits.tail).filter (fun p => p.1 = last ∧ p.2 = d)).length

/-- Maximum `Math.max(...transitions)` (src/backend.js line 223). -/
def maxTransition (digits : List (Fin 10)) : ℕ :=
  Finset.univ.sup (fun d : Fin 10 => transitionCounts digits d)

/-- Function `getPairingFrequencyScores` (src/backend.js lines 215–225):
`score[d] = (count / (maxTransition || 1)) * 30`. -/
def getPairingFrequencyScores (digits : List (Fin 10)) (d : Fin 10) : ℚ :=
  (transitionCounts digits d : ℚ) /
    (if maxTransition digits = 0 then 1 else (maxTransition digits : ℚ)) * 30

/-! ## Fusion and certainty gate (src/backend.js lines 166–196) -/

/-- Captured score vectors `{ldf, recency, pf}` (each a 10-vector). -/
structure ModelScores : Type where
  ldf : Fin 10 → ℚ
  recency : Fin 10 → ℚ
  pf : Fin 10 → ℚ

/-- Score vector of one model by label. -/
def ModelScores.get (ms : ModelScores) : Model → Fin 10 → ℚ
  | Model.ldf => ms.ldf
  | Model.recency => ms.recency
  | Model.pf => ms.pf

/-- Weighted aggregation (src/backend.js lines 167–172):
`finalScores[i] = ldf[i]*w.ldf + recency[i]*w.recency + pf[i]*w.pf`. -/
def finalScores (w : Weights) (ms : ModelScores) (d : Fin 10) : ℚ :=
  ms.ldf d * w.ldf + ms.recency d * w.recency + ms.pf d * w.pf

/-- List `sortedScores` (src/backend.js line 175): the ten `(score, index)` pairs
sorted descending by score.  `Array.prototype.sort` is stable; the stable
descending sort is embedded as insertion sort on `b.score ≤ a.score`. -/
def sortedScores (fs : Fin 10 → ℚ) : List (ℚ × Fin 10) :=
  List.insertionSort (fun a b => b.1 ≤ a.1)
    ((List.finRange 10).map (fun i => (fs i, i)))

/-- Entry `best = sortedScores[0]` (src/backend.js line 176); the default is never
reached since the sorted list always has ten elements. -/
def bestEntry (fs : Fin 10 → ℚ) : ℚ × Fin 10 :=
  (sortedScores fs).getD 0 (0, 0)

/-- Entry `runnerUp = sortedScores[1]` (src/backend.js line 177). -/
def runnerUpEntry (fs : Fin 10 → ℚ) : ℚ × Fin 10 :=
  (sortedScores fs).getD 1 (0, 0)

/-- The certainty test `best.score > runnerUp.score * CERTAINTY_THRESHOLD`
(src/backend.js line 179). -/
def certaintyConfirmed (bestScore runnerUpScore : ℚ) : Prop :=
  bestScore > runnerUpScore * CERTAINTY_THRESHOLD

instance (b r : ℚ) : Decidable (certaintyConfirmed b r) := by
  unfold certaintyConfirmed; infer_instance

/-- The fusion decision of `getAIProbabilityPrediction` on a final score
vector: `true` iff the signal would be CONFIRMED (src/backend.js line 179). -/
def fusionSignal (fs : Fin 10 → ℚ) : Bool :=
  decide (certaintyConfirmed (bestEntry fs).1 (runnerUpEntry fs).1)

/-- Expression `confidence = Math.min(99, Math.floor(50 + (best.score - runnerUp.score) * 2))`
(src/backend.js line 180). -/
def confidence (bestScore runnerUpScore : ℚ) : ℤ :=
  min 99 ⌊(50 : ℚ) + (bestScore - runnerUpScore) * 2⌋

/-! ## Adaptive learner (src/backend.js lines 235–273) -/

/-- Stable descending order of the three models by their score at a digit,
embedding `[{ldf},{recency},{pf}].sort((a, b) => b.score - a.score)`
(src/backend.js lines 246–250 and 260–264): insertion-sort placement with
original order `ldf, recency, pf` preserved on ties. -/
def rankModels (s : Model → ℚ) : List Model :=
  List.insertionSort (fun a b => s b ≤ s a) [Model.ldf, Model.recency, Model.pf]

/-- The model penalized on a LOSS: the top-ranked model by captured score at
the predicted digit (src/backend.js line 265). -/
def penalizedModel (ms : ModelScores) (predicted : Fin 10) : Model :=
  (rankModels (fun m => ms.get m predicted)).headI

/-- The per-key clamp `Math.max(0.5, Math.min(2.0, w))`
(src/backend.js line 269). -/
def clampWeight (x : ℚ) : ℚ := max (1/2) (min 2 x)

/-- Clamp all three weights (src/backend.js lines 268–270). -/
def clampWeights (w : Weights) : Weights :=
  ⟨clampWeight w.ldf, clampWeight w.recency, clampWeight w.pf⟩

/-- Constant `adj = 0.05` (src/backend.js line 243). -/
def adj : ℚ := 1/20

/-- The weight update of `backtestAndLearn` (src/backend.js lines 235–273)
as a function of the instrument's weights, the captured model scores, the
predicted digit and the realized final digit: on a WIN the top two models
ranked at the realized digit gain `2·adj` and `adj`; on a LOSS the top
model ranked at the predicted digit loses `2·adj`; then every weight is
clamped to `[0.5, 2.0]`. -/
def backtestAndLearn (w : Weights) (ms : ModelScores)
    (predicted finalDigit : Fin 10) : Weights :=
  let w' :=
    if finalDigit = predicted then
      let ranked := rankModels (fun m => ms.get m finalDigit)
      let w1 := w.set (ranked.headI) (w.get (ranked.headI) + adj * 2)
      w1.set (ranked.tail.headI) (w1.get (ranked.tail.headI) + adj)
    else
      let m := penalizedModel ms predicted
      w.set m (w.get m - adj * 2)
  clampWeights w'

/-- One learning event: captured model scores, predicted digit, final digit. -/
structure LearnEvent : Type where
  scores : ModelScores
  predicted : Fin 10
  finalDigit : Fin 10

/-- Fold a sequence of learning events through `backtestAndLearn`. -/
def applyEvents (w : Weights) (evs : List LearnEvent) : Weights :=
  evs.foldl (fun w e => backtestAndLearn w e.scores e.predicted e.finalDigit) w

/-! ## Kalman filter and tick handling (src/backend.js lines 104–122, 233) -/

/-- A JavaScript number as the filter sees it: a (finite) rational or NaN.
NaN absorbs under addition, subtraction and scalar multiplication, as in
IEEE arithmetic. -/
inductive JVal : Type
  | num (q : ℚ)
  | nan
deriving DecidableEq, Repr

/-- IEEE-style addition on embedded values: NaN absorbs. -/
def JVal.add : JVal → JVal → JVal
  | JVal.num a, JVal.num b => JVal.num (a + b)
  | _, _ => JVal.nan

/-- IEEE-style subtraction on embedded values: NaN absorbs. -/
def JVal.sub : JVal → JVal → JVal
  | JVal.num a, JVal.num b => JVal.num (a - b)
  | _, _ => JVal.nan

/-- Multiplication of an embedded value by a rational: NaN absorbs
(`k * NaN = NaN` for every float `k`). -/
def JVal.smul (k : ℚ) : JVal → JVal
  | JVal.num a => JVal.num (k * a)
  | JVal.nan => JVal.nan

/-- State `kalmanState: { x: null, p: 1 }` (src/backend.js line 34): `x` is `null`
until the first observation; `p` only ever mixes with the rational constants
`KALMAN_R`, `KALMAN_Q`, so it stays a rational. -/
structure KalmanState : Type where
  x : Option JVal
  p : ℚ
deriving DecidableEq, Repr

/-- Function `kalmanUpdate` (src/backend.js line 233): if `x` is `null` set `x := z`;
then `p_pred = p + R`, `K = p_pred / (p_pred + Q)`, `x := x + K*(z - x)`,
`p := (1 - K) * p_pred`; returns the updated state and the returned `x`. -/
def kalmanUpdate (state : KalmanState) (z : JVal) : KalmanState × JVal :=
  let x0 : JVal := match state.x with
    | none => z
    | some v => v
  let p_pred : ℚ := state.p + KALMAN_R
  let K : ℚ := p_pred / (p_pred + KALMAN_Q)
  let x1 : JVal := x0.add ((z.sub x0).smul K)
  let p1 : ℚ := (1 - K) * p_pred
  (⟨some x1, p1⟩, x1)

/-- Per-instrument state, the fields `handleTick` touches
(src/backend.js lines 31–39). -/
structure Instrument : Type where
  priceHistory : List JVal
  kalmanState : KalmanState
  weights : Weights
deriving Repr

/-- The history/filter effect of `handleTick` (src/backend.js lines 104–122):
smooth the quote through the Kalman filter, append the smoothed price, and
drop the oldest entry when the history exceeds
`STABILITY_ANALYSIS_TICKS + 5`.  The remaining lines of `handleTick`
(broadcast and `runAnalysis`) never write `priceHistory` or `kalmanState`. -/
def handleTick (inst : Instrument) (quote : JVal) : Instrument :=
  let r := kalmanUpdate inst.kalmanState quote
  let hist := inst.priceHistory ++ [r.2]
  let hist' := if STABILITY_ANALYSIS_TICKS + 5 < hist.length then hist.tail else hist
  { inst with priceHistory := hist', kalmanState := r.1 }

/-! ## Initialization (src/backend.js lines 27–41) -/

/-- The per-symbol instrument built by `initInstruments`
(src/backend.js lines 31–39): empty history, filter state `{x: null, p: 1}`,
and `weights: savedWeights[symbol] || { ...INITIAL_WEIGHTS }` — the stored
triple verbatim when present, the defaults otherwise. -/
def initInstrument (savedWeights : Option Weights) : Instrument :=
  { priceHistory := []
    kalmanState := ⟨none, 1⟩
    weights := savedWeights.getD INITIAL_WEIGHTS }

/-! ## Helper lemmas -/

lemma clampWeight_lower (x : ℚ) : 1/2 ≤ clampWeight x := le_max_left _ _

lemma clampWeight_upper (x : ℚ) : clampWeight x ≤ 2 := by
  unfold clampWeight
  exact max_le (by norm_num) (min_le_left _ _)

lemma clampWeights_inBounds (w : Weights) : WeightsInBounds (clampWeights w) :=
  ⟨⟨clampWeight_lower _, clampWeight_upper _⟩,
   ⟨clampWeight_lower _, clampWeight_upper _⟩,
   ⟨clampWeight_lower _, clampWeight_upper _⟩⟩

lemma backtestAndLearn_inBounds (w : Weights) (ms : ModelScores)
    (p fd : Fin 10) : WeightsInBounds (backtestAndLearn w ms p fd) := by
  unfold backtestAndLearn
  exact clampWeights_inBounds _

lemma applyEvents_inBounds (evs : List LearnEvent) (w : Weights)
    (hw : WeightsInBounds w) : WeightsInBounds (applyEvents w evs) := by
  induction evs generalizing w with
  | nil => exact hw
  | cons e t ih => exact ih _ (backtestAndLearn_inBounds _ _ _ _)

lemma wGet_clampWeights (w : Weights) (m : Model) :
    (clampWeights w).get m = clampWeight (w.get m) := by
  cases m <;> rfl

lemma wGet_set_same (w : Weights) (m : Model) (v : ℚ) :
    (w.set m v).get m = v := by
  cases m <;> rfl

lemma wGet_inBounds (w : Weights) (hw : WeightsInBounds w) (m : Model) :
    1/2 ≤ w.get m ∧ w.get m ≤ 2 := by
  obtain ⟨h1, h2, h3⟩ := hw
  cases m <;> assumption

lemma backtestAndLearn_loss_get (w : Weights) (ms : ModelScores)
    (p fd : Fin 10) (h : fd ≠ p) :
    (backtestAndLearn w ms p fd).get (penalizedModel ms p)
      = clampWeight (w.get (penalizedModel ms p) - adj * 2) := by
  unfold backtestAndLearn
  rw [if_neg h, wGet_clampWeights, wGet_set_same]

lemma max_half_step (t : ℚ) :
    max (1/2) (max (1/2) t - 1/10) = max (1/2) (t - 1/10) := by
  rw [← max_sub_sub_right, ← max_assoc,
    max_eq_left (show (1/2 : ℚ) - 1/10 ≤ 1/2 by norm_num)]

lemma lossIter_get (w : Weights) (hw : WeightsInBounds w) (ms : ModelScores)
    (p fd : Fin 10) (h : fd ≠ p) (n : ℕ) :
    Weights.get ((fun v => backtestAndLearn v ms p fd)^[n] w) (penalizedModel ms p)
      = max (1/2) (w.get (penalizedModel ms p) - n * (1/10)) := by
  induction n with
  | zero =>
      simp only [Function.iterate_zero, id_eq, Nat.cast_zero, zero_mul, sub_zero]
      exact (max_eq_right (wGet_inBounds w hw _).1).symm
  | succ k ih =>
      rw [Function.iterate_succ_apply',
        backtestAndLearn_loss_get _ _ _ _ h, ih,
        show adj * 2 = 1/10 by norm_num [adj]]
      have hub : max (1/2 : ℚ) (w.get (penalizedModel ms p) - k * (1/10)) ≤ 2 :=
        max_le (by norm_num)
          (le_trans (sub_le_self _ (by positivity)) (wGet_inBounds w hw _).2)
      unfold clampWeight
      rw [min_eq_right (le_trans (sub_le_self _ (by norm_num)) hub)]
      show max (1/2 : ℚ)
        (max (1/2) (w.get (penalizedModel ms p) - k * (1/10)) - 1/10)
        = _
      rw [max_half_step]
      congr 1
      push_cast
      ring

/-! ## Claim theorems -/

/-- C1.  Starting from weights in `[0.5, 2.0]`, any sequence of
`backtestAndLearn` invocations (WIN or LOSS, arbitrary captured scores and
digits) leaves every weight in `[0.5, 2.0]`; and iterating a LOSS update
keeps the penalized model's weight at least `0.5`, with the weight equal to
exactly `0.5` from the 15th repetition on. -/
theorem backtest_weight_bounds (w : Weights) (hw : WeightsInBounds w) :
    (∀ evs : List LearnEvent, WeightsInBounds (applyEvents w evs)) ∧
    (∀ (ms : ModelScores) (p fd : Fin 10), fd ≠ p →
      (∀ n : ℕ, 1/2 ≤ Weights.get
          ((fun v => backtestAndLearn v ms p fd)^[n] w) (penalizedModel ms p)) ∧
      (∀ n : ℕ, 15 ≤ n → Weights.get
          ((fun v => backtestAndLearn v ms p fd)^[n] w) (penalizedModel ms p)
            = 1/2)) := by
  constructor
  · exact fun evs => applyEvents_inBounds evs w hw
  · intro ms p fd h
    constructor
    · intro n
      rw [lossIter_get w hw ms p fd h n]
      exact le_max_left _ _
    · intro n hn
      rw [lossIter_get w hw ms p fd h n]
      have h2 : w.get (penalizedModel ms p) ≤ 2 := (wGet_inBounds w hw _).2
      have h15 : (3/2 : ℚ) ≤ n * (1/10) := by
        have : (15 : ℚ) ≤ n := by exact_mod_cast hn
        linarith
      exact max_eq_left (by linarith)

/-- Witness for C1 at concrete inputs: initial weights `(1, 1, 1)`, one WIN
event, and twenty iterated LOSS events with captured scores ranking
`pf > recency > ldf`. -/
theorem backtest_weight_bounds_witness :
    WeightsInBounds (applyEvents ⟨1, 1, 1⟩
      [⟨⟨fun _ => 1, fun _ => 2, fun _ => 3⟩, 0, 0⟩]) ∧
    Weights.get ((fun v => backtestAndLearn v
        ⟨fun _ => 1, fun _ => 2, fun _ => 3⟩ 0 1)^[20] ⟨1, 1, 1⟩)
      (penalizedModel ⟨fun _ => 1, fun _ => 2, fun _ => 3⟩ 0) = 1/2 :=
  ⟨(backtest_weight_bounds ⟨1, 1, 1⟩ (by norm_num [WeightsInBounds])).1 _,
   ((backtest_weight_bounds ⟨1, 1, 1⟩ (by norm_num [WeightsInBounds])).2
      ⟨fun _ => 1, fun _ => 2, fun _ => 3⟩ 0 1 (by decide)).2 20 (by norm_num)⟩

/-- C2 counterexample.  After the first `kalmanUpdate` call (initial state
`{x: null, p: 1}`, observation `0`), the estimate is the observation but the
error covariance is `101/1110`, not `1`: the function does not return early
after `state.x = z`, it runs the full update. -/
theorem kalman_first_call_covariance_ne_one :
    (kalmanUpdate ⟨none, 1⟩ (JVal.num 0)).1.x = some (JVal.num 0) ∧
    (kalmanUpdate ⟨none, 1⟩ (JVal.num 0)).1.p ≠ 1 := by
  constructor
  · simp [kalmanUpdate, JVal.sub, JVal.smul, JVal.add]
  · simp only [kalmanUpdate, KALMAN_R, KALMAN_Q]
    norm_num

/-- C2 amended.  For every observation `z`, applying the smoother to the
initial filter state (`x = null`, `p = 1`) yields estimate `z` and error
covariance `(1 - K) * (1 + R) = 101/1110`, and returns `z`. -/
theorem kalman_first_call (z : ℚ) :
    kalmanUpdate ⟨none, 1⟩ (JVal.num z)
      = (⟨some (JVal.num z), 101/1110⟩, JVal.num z) := by
  simp only [kalmanUpdate, JVal.sub, JVal.smul, JVal.add, KALMAN_R, KALMAN_Q]
  norm_num

/-- C3.  `handleTick` has no finiteness guard: a NaN quote arriving at a
freshly initialized instrument is not a no-op — the Kalman estimate becomes
NaN and NaN is appended to the price history, contradicting the spec's
error-handling requirement. -/
theorem handleTick_nan_corrupts :
    (handleTick (initInstrument none) JVal.nan).priceHistory
      = [JVal.nan] ∧
    (handleTick (initInstrument none) JVal.nan).kalmanState.x
      = some JVal.nan := by
  constructor
  · simp [handleTick, initInstrument, kalmanUpdate, JVal.sub, JVal.smul,
      JVal.add, STABILITY_ANALYSIS_TICKS]
  · simp [handleTick, initInstrument, kalmanUpdate, JVal.sub, JVal.smul,
      JVal.add]

/-- C8.  The fusion decision is CONFIRMED exactly when
`best.score > runnerUp.score * 1.5`, and the certainty test is monotone in
the best score with the runner-up score held fixed: a CONFIRMED decision
never flips to HOLD as the best score grows. -/
theorem certainty_gate_monotone :
    (∀ fs : Fin 10 → ℚ, fusionSignal fs = true ↔
        certaintyConfirmed (bestEntry fs).1 (runnerUpEntry fs).1) ∧
    (∀ b b' r : ℚ, certaintyConfirmed b r → b ≤ b' →
        certaintyConfirmed b' r) := by
  constructor
  · intro fs
    exact decide_eq_true_iff
  · intro b b' r hc hle
    unfold certaintyConfirmed CERTAINTY_THRESHOLD at hc ⊢
    linarith

/-- Witness for C8: the test at `best = 4, runnerUp = 1` is CONFIRMED, and
stays CONFIRMED after raising the best score to `5`; on a concrete flat
score vector the fusion decision agrees with the pairwise test. -/
theorem certainty_gate_monotone_witness :
    certaintyConfirmed 5 1 ∧
    (fusionSignal (fun _ => 0) = true ↔
      certaintyConfirmed (bestEntry (fun _ => 0)).1
        (runnerUpEntry (fun _ => 0)).1) :=
  ⟨certainty_gate_monotone.2 4 5 1 (by norm_num [certaintyConfirmed, CERTAINTY_THRESHOLD]) (by norm_num),
   certainty_gate_monotone.1 (fun _ => 0)⟩

/-- C10.  Initialization copies a stored weight triple verbatim — no
clamping, no validation: absent stored data falls back to
`INITIAL_WEIGHTS`, and an out-of-range stored triple such as `(3, 1, 1)`
becomes the instrument's initial weights unchanged, so the `[0.5, 2.0]`
invariant is not established at startup. -/
theorem initialize_weights_verbatim :
    (∀ s : Weights, (initInstrument (some s)).weights = s) ∧
    (initInstrument none).weights = INITIAL_WEIGHTS ∧
    (initInstrument (some ⟨3, 1, 1⟩)).weights = ⟨3, 1, 1⟩ ∧
    ¬ WeightsInBounds (initInstrument (some ⟨3, 1, 1⟩)).weights := by
  refine ⟨fun s => rfl, rfl, rfl, ?_⟩
  intro h
  have := h.1.2
  norm_num [initInstrument, Weights.get] at this

lemma ldfCounts_le_max (l : List (Fin 10)) (d : Fin 10) :
    ldfCounts l d ≤ ldfMaxCount l :=
  Finset.le_sup (Finset.mem_univ d)

/-- C7.  LDF scoring: every digit of maximal count scores exactly `0` (so
ties share it), that score is minimal (all scores are nonnegative), every
digit scores `(maxCount - count) * 1.5`, and an absent digit scores
`maxCount * 1.5`. -/
theorem ldf_scores_spec (l : List (Fin 10)) :
    (∀ d, ldfCounts l d = ldfMaxCount l → getLDFScores l d = 0) ∧
    (∀ d, 0 ≤ getLDFScores l d) ∧
    (∀ d, getLDFScores l d
        = ((ldfMaxCount l : ℚ) - (ldfCounts l d : ℚ)) * (3/2)) ∧
    (∀ d, ldfCounts l d = 0 →
        getLDFScores l d = (ldfMaxCount l : ℚ) * (3/2)) := by
  refine ⟨?_, ?_, fun d => rfl, ?_⟩
  · intro d h
    unfold getLDFScores
    rw [h, sub_self, zero_mul]
  · intro d
    unfold getLDFScores
    have h := ldfCounts_le_max l d
    have : (ldfCounts l d : ℚ) ≤ (ldfMaxCount l : ℚ) := by exact_mod_cast h
    nlinarith
  · intro d h
    unfold getLDFScores
    rw [h]
    norm_num

/-- Witness for C7 on the digits `[3, 3, 7]`: the mode `3` scores `0`, and
the absent digit `0` scores `maxCount * 1.5 = 3`. -/
theorem ldf_scores_spec_witness :
    getLDFScores [3, 3, 7] 3 = 0 ∧
    getLDFScores [3, 3, 7] 0 = (ldfMaxCount [3, 3, 7] : ℚ) * (3/2) :=
  ⟨(ldf_scores_spec [3, 3, 7]).1 3 (by decide),
   (ldf_scores_spec [3, 3, 7]).2.2.2 0 (by decide)⟩

lemma transitionCounts_le_max (l : List (Fin 10)) (d : Fin 10) :
    transitionCounts l d ≤ maxTransition l :=
  Finset.le_sup (Finset.mem_univ d)

/-- C5.  PF normalization: when every transition count out of the current
last digit is `0`, all ten PF scores are `0`; otherwise the maximum PF
score is exactly `30` (some digit attains `30` and no digit exceeds it). -/
theorem pf_normalization (l : List (Fin 10)) (_h : l ≠ []) :
    ((∀ d, transitionCounts l d = 0) →
      ∀ d, getPairingFrequencyScores l d = 0) ∧
    ((∃ d, transitionCounts l d ≠ 0) →
      (∃ d, getPairingFrequencyScores l d = 30) ∧
      ∀ d, getPairingFrequencyScores l d ≤ 30) := by
  constructor
  · intro hz d
    unfold getPairingFrequencyScores
    rw [hz d]
    simp
  · rintro ⟨d0, hd0⟩
    have hmax : maxTransition l ≠ 0 := by
      intro h0
      exact hd0 (Nat.le_zero.mp (h0 ▸ transitionCounts_le_max l d0))
    have hmaxQ : (0 : ℚ) < (maxTransition l : ℚ) := by
      exact_mod_cast Nat.pos_of_ne_zero hmax
    constructor
    · obtain ⟨b, _, hb⟩ :=
        Finset.exists_mem_eq_sup (Finset.univ : Finset (Fin 10))
          Finset.univ_nonempty (fun d => transitionCounts l d)
      refine ⟨b, ?_⟩
      unfold getPairingFrequencyScores
      rw [if_neg hmax]
      have hbeq : maxTransition l = transitionCounts l b := hb
      rw [hbeq] at hmaxQ ⊢
      rw [div_self (ne_of_gt hmaxQ), one_mul]
    · intro d
      unfold getPairingFrequencyScores
      rw [if_neg hmax]
      have hle : (transitionCounts l d : ℚ) ≤ (maxTransition l : ℚ) := by
        exact_mod_cast transitionCounts_le_max l d
      have h1 : (transitionCounts l d : ℚ) / (maxTransition l : ℚ) ≤ 1 :=
        (div_le_one hmaxQ).mpr hle
      nlinarith

/-- Witness for C5 on the digits `[3, 3, 3, 7, 3]` (transition counts out
of the last digit `3` are not all zero): some PF score is `30` and all are
at most `30`. -/
theorem pf_normalization_witness :
    (∃ d, getPairingFrequencyScores [3, 3, 3, 7, 3] d = 30) ∧
    ∀ d, getPairingFrequencyScores [3, 3, 3, 7, 3] d ≤ 30 :=
  (pf_normalization [3, 3, 3, 7, 3] (by decide)).2 ⟨3, by decide⟩

/-- C4 counterexample.  The digits `[3, 3, 3, 7, 3]` end in `3`, where `3`
is followed by `3` exactly twice and by `7` exactly once and by nothing
else; the code normalizes by the maximum transition count (`2`), so PF
score of `3` is `30` (not `20`) and PF score of `7` is `15` (not `10`). -/
theorem pf_scenario_counterexample :
    ([3, 3, 3, 7, 3] : List (Fin 10)).getLast? = some 3 ∧
    transitionCounts [3, 3, 3, 7, 3] 3 = 2 ∧
    transitionCounts [3, 3, 3, 7, 3] 7 = 1 ∧
    (∀ d : Fin 10, d ≠ 3 → d ≠ 7 → transitionCounts [3, 3, 3, 7, 3] d = 0) ∧
    getPairingFrequencyScores [3, 3, 3, 7, 3] 3 ≠ 20 ∧
    getPairingFrequencyScores [3, 3, 3, 7, 3] 7 ≠ 10 := by
  refine ⟨by decide, by decide, by decide, by decide, ?_, ?_⟩
  all_goals
    norm_num [getPairingFrequencyScores,
      show transitionCounts [3, 3, 3, 7, 3] 3 = 2 from by decide,
      show transitionCounts [3, 3, 3, 7, 3] 7 = 1 from by decide,
      show maxTransition [3, 3, 3, 7, 3] = 2 from by decide]

/-- C4 amended.  For every digit sequence ending in `3` in which `3` is
followed by `3` exactly twice and by `7` exactly once (no other successors
of `3`), the PF scores are `score[3] = 30`, `score[7] = 15`, and `0` for
every other digit. -/
theorem pf_scenario (l : List (Fin 10)) (_hlast : l.getLast? = some 3)
    (h3 : transitionCounts l 3 = 2) (h7 : transitionCounts l 7 = 1)
    (h0 : ∀ d, d ≠ 3 → d ≠ 7 → transitionCounts l d = 0) :
    getPairingFrequencyScores l 3 = 30 ∧
    getPairingFrequencyScores l 7 = 15 ∧
    ∀ d, d ≠ 3 → d ≠ 7 → getPairingFrequencyScores l d = 0 := by
  have hmax : maxTransition l = 2 := by
    apply le_antisymm
    · apply Finset.sup_le
      intro d _
      by_cases hd3 : d = 3
      · rw [hd3, h3]
      · by_cases hd7 : d = 7
        · rw [hd7, h7]; norm_num
        · rw [h0 d hd3 hd7]; norm_num
    · exact h3 ▸ transitionCounts_le_max l 3
  refine ⟨?_, ?_, ?_⟩
  · norm_num [getPairingFrequencyScores, h3, hmax]
  · norm_num [getPairingFrequencyScores, h7, hmax]
  · intro d hd3 hd7
    norm_num [getPairingFrequencyScores, h0 d hd3 hd7, hmax]

/-- Witness for C4 (amended) on the digits `[3, 3, 3, 7, 3]`. -/
theorem pf_scenario_witness :
    getPairingFrequencyScores [3, 3, 3, 7, 3] 3 = 30 ∧
    getPairingFrequencyScores [3, 3, 3, 7, 3] 7 = 15 ∧
    ∀ d, d ≠ 3 → d ≠ 7 → getPairingFrequencyScores [3, 3, 3, 7, 3] d = 0 :=
  pf_scenario [3, 3, 3, 7, 3] (by decide) (by decide) (by decide) (by decide)

lemma lastIdx_eq_none_iff (l : List (Fin 10)) (d : Fin 10) :
    lastIdx l d = none ↔ d ∉ l := by
  induction l with
  | nil => simp [lastIdx]
  | cons a t ih =>
      rw [List.mem_cons]
      cases h : lastIdx t d with
      | some j =>
          have hd : d ∈ t := by
            by_contra hd
            exact absurd (ih.mpr hd) (by simp [h])
          simp [lastIdx, h, hd]
      | none =>
          have hd : d ∉ t := ih.mp h
          by_cases had : a = d
          · simp [lastIdx, h, had]
          · simp [lastIdx, h, had, hd, Ne.symm had]

lemma lastIdx_concat_self (l : List (Fin 10)) (a : Fin 10) :
    lastIdx (l ++ [a]) a = some l.length := by
  induction l with
  | nil => simp [lastIdx]
  | cons b t ih => simp [lastIdx, ih]

lemma lastIdx_lt_length (l : List (Fin 10)) (d : Fin 10) (j : ℕ)
    (h : lastIdx l d = some j) : j < l.length := by
  induction l generalizing j with
  | nil => simp [lastIdx] at h
  | cons a t ih =>
      simp only [lastIdx] at h
      cases ht : lastIdx t d with
      | some j' =>
          rw [ht] at h
          have hj : j = j' + 1 := by simpa using h.symm
          subst hj
          have := ih j' ht
          simp only [List.length_cons]
          omega
      | none =>
          rw [ht] at h
          by_cases had : a = d
          · rw [if_pos had] at h
            have hj : j = 0 := by simpa using h.symm
            subst hj
            simp
          · rw [if_neg had] at h
            simp at h

/-- C6 amended.  For every non-empty digit sequence: a digit absent from
the window scores exactly `ANALYSIS_TICKS = 100`; the digit at the last
position scores `0`; all scores are nonnegative; and whenever the sequence
has length at most `101` every score is at most `100`, so the absent
digit's `100` is then the maximum.  (For longer windows — history grows to
`155` — a present digit can outscore it.) -/
theorem recency_scores (l : List (Fin 10)) (_h : l ≠ []) :
    (∀ d, d ∉ l → getRecencyScores l d = 100) ∧
    (∀ a, l.getLast? = some a → getRecencyScores l a = 0) ∧
    (∀ d, 0 ≤ getRecencyScores l d) ∧
    (l.length ≤ 101 → ∀ d, getRecencyScores l d ≤ 100) := by
  refine ⟨?_, ?_, ?_, ?_⟩
  · intro d hd
    simp [getRecencyScores, (lastIdx_eq_none_iff l d).mpr hd, ANALYSIS_TICKS]
  · intro a ha
    rcases List.eq_nil_or_concat l with rfl | ⟨t, b, rfl⟩
    · simp at ha
    · rw [List.concat_eq_append] at ha ⊢
      rw [List.getLast?_concat] at ha
      obtain rfl : b = a := Option.some_inj.mp ha
      simp only [getRecencyScores, lastIdx_concat_self]
      rw [List.length_append]
      push_cast
      norm_num
  · intro d
    cases hm : lastIdx l d with
    | none => simp [getRecencyScores, hm, ANALYSIS_TICKS]
    | some j =>
        have hj := lastIdx_lt_length l d j hm
        simp only [getRecencyScores, hm]
        have : (0 : ℤ) ≤ (l.length : ℤ) - 1 - j := by omega
        exact_mod_cast this
  · intro hlen d
    cases hm : lastIdx l d with
    | none => simp [getRecencyScores, hm, ANALYSIS_TICKS]
    | some j =>
        simp only [getRecencyScores, hm]
        have : (l.length : ℤ) - 1 - j ≤ 100 := by omega
        exact_mod_cast this

/-- Witness for C6 (amended) on the digits `[0, 1]`: the absent digit `5`
scores `100`, the last digit `1` scores `0`, and the score of `0` stays at
most `100`. -/
theorem recency_scores_witness :
    getRecencyScores [0, 1] 5 = 100 ∧ getRecencyScores [0, 1] 1 = 0 ∧
    getRecencyScores [0, 1] 0 ≤ 100 :=
  ⟨(recency_scores [0, 1] (by decide)).1 5 (by decide),
   (recency_scores [0, 1] (by decide)).2.1 1 (by decide),
   (recency_scores [0, 1] (by decide)).2.2.2 (by decide) 0⟩

/-- C6 counterexample.  On the 102-digit sequence `5, 1, 1, …, 1` the
absent digit `0` scores `100`, but digit `5` (last seen at position 0)
scores `101`, so the absent digit's score is not the maximum of the ten
recency scores. -/
theorem recency_overdue_not_max :
    ((5 : Fin 10) :: List.replicate 101 1) ≠ [] ∧
    (0 : Fin 10) ∉ ((5 : Fin 10) :: List.replicate 101 1) ∧
    getRecencyScores ((5 : Fin 10) :: List.replicate 101 1) 0 = 100 ∧
    getRecencyScores ((5 : Fin 10) :: List.replicate 101 1) 5 = 101 ∧
    ¬ (∀ d, getRecencyScores ((5 : Fin 10) :: List.replicate 101 1) d
          ≤ getRecencyScores ((5 : Fin 10) :: List.replicate 101 1) 0) := by
  have hnone : lastIdx ((5 : Fin 10) :: List.replicate 101 1) 0 = none := by
    decide
  have hsome : lastIdx ((5 : Fin 10) :: List.replicate 101 1) 5 = some 0 := by
    decide
  have hlen : (((5 : Fin 10) :: List.replicate 101 1) : List (Fin 10)).length
      = 102 := by decide
  have h0 : getRecencyScores ((5 : Fin 10) :: List.replicate 101 1) 0 = 100 := by
    simp only [getRecencyScores, hnone, ANALYSIS_TICKS]
    norm_num
  have h5 : getRecencyScores ((5 : Fin 10) :: List.replicate 101 1) 5 = 101 := by
    simp only [getRecencyScores, hsome, hlen]
    norm_num
  refine ⟨by decide, by decide, h0, h5, ?_⟩
  intro hall
  have := hall 5
  rw [h0, h5] at this
  norm_num at this

/-- The three captured score vectors of one analysis pass
(src/backend.js lines 162–164 and 192). -/
def modelScoresOf (l : List (Fin 10)) : ModelScores :=
  ⟨getLDFScores l, getRecencyScores l, getPairingFrequencyScores l⟩

lemma ldf_nonneg (l : List (Fin 10)) (d : Fin 10) : 0 ≤ getLDFScores l d := by
  unfold getLDFScores
  have h : (ldfCounts l d : ℚ) ≤ (ldfMaxCount l : ℚ) := by
    exact_mod_cast ldfCounts_le_max l d
  nlinarith

lemma recency_nonneg (l : List (Fin 10)) (d : Fin 10) :
    0 ≤ getRecencyScores l d := by
  cases hm : lastIdx l d with
  | none => simp [getRecencyScores, hm, ANALYSIS_TICKS]
  | some j =>
      have hj := lastIdx_lt_length l d j hm
      simp only [getRecencyScores, hm]
      have : (0 : ℤ) ≤ (l.length : ℤ) - 1 - j := by omega
      exact_mod_cast this

lemma pf_nonneg (l : List (Fin 10)) (d : Fin 10) :
    0 ≤ getPairingFrequencyScores l d := by
  unfold getPairingFrequencyScores
  apply mul_nonneg _ (by norm_num)
  apply div_nonneg (by positivity)
  by_cases h : maxTransition l = 0
  · rw [if_pos h]; norm_num
  · rw [if_neg h]; positivity

lemma finalScores_nonneg (w : Weights) (hldf : 0 ≤ w.ldf)
    (hrec : 0 ≤ w.recency) (hpf : 0 ≤ w.pf) (l : List (Fin 10)) (d : Fin 10) :
    0 ≤ finalScores w (modelScoresOf l) d := by
  unfold finalScores modelScoresOf
  have h1 := ldf_nonneg l d
  have h2 := recency_nonneg l d
  have h3 := pf_nonneg l d
  positivity

lemma runnerUpEntry_is_score (fs : Fin 10 → ℚ) :
    ∃ i : Fin 10, runnerUpEntry fs = (fs i, i) := by
  have hlen : (sortedScores fs).length = 10 := by
    unfold sortedScores
    rw [List.length_insertionSort, List.length_map, List.length_finRange]
  have h1 : (1 : ℕ) < (sortedScores fs).length := by rw [hlen]; norm_num
  have hmem : runnerUpEntry fs ∈ sortedScores fs := by
    unfold runnerUpEntry
    rw [List.getD_eq_getElem _ _ h1]
    exact List.getElem_mem _
  have hmem' : runnerUpEntry fs ∈ (List.finRange 10).map (fun i => (fs i, i)) :=
    (List.perm_insertionSort _ _).mem_iff.mp hmem
  obtain ⟨i, _, hi⟩ := List.mem_map.mp hmem'
  exact ⟨i, hi.symm⟩

/-- C9.  When the weights are nonnegative and the certainty gate confirms
on the fused scores of the three models, the reported confidence lies in
`[50, 99]`: all three score vectors are nonnegative, so the runner-up score
is nonnegative, the gap `best − runnerUp` is positive under the certainty
test, and `min 99 ⌊50 + gap * 2⌋` lands between `50` and `99`. -/
theorem confirmed_confidence_bounds (l : List (Fin 10)) (w : Weights)
    (hldf : 0 ≤ w.ldf) (hrec : 0 ≤ w.recency) (hpf : 0 ≤ w.pf)
    (hc : certaintyConfirmed
      (bestEntry (finalScores w (modelScoresOf l))).1
      (runnerUpEntry (finalScores w (modelScoresOf l))).1) :
    50 ≤ confidence (bestEntry (finalScores w (modelScoresOf l))).1
        (runnerUpEntry (finalScores w (modelScoresOf l))).1 ∧
    confidence (bestEntry (finalScores w (modelScoresOf l))).1
        (runnerUpEntry (finalScores w (modelScoresOf l))).1 ≤ 99 := by
  have hr0 : 0 ≤ (runnerUpEntry (finalScores w (modelScoresOf l))).1 := by
    obtain ⟨i, hi⟩ := runnerUpEntry_is_score (finalScores w (modelScoresOf l))
    rw [hi]
    exact finalScores_nonneg w hldf hrec hpf l i
  unfold certaintyConfirmed CERTAINTY_THRESHOLD at hc
  constructor
  · apply le_min (by norm_num)
    apply Int.le_floor.mpr
    push_cast
    nlinarith
  · exact min_le_left _ _

/-- Witness for C9 on the digits `[0, 1, …, 8]` with weights `(0, 1, 0)`:
the fused scores equal the recency scores, the absent digit `9` wins with
`100` against runner-up `8`, the gate confirms (`100 > 8 * 1.5`), and the
confidence is between `50` and `99`. -/
theorem confirmed_confidence_bounds_witness :
    50 ≤ confidence
        (bestEntry (finalScores ⟨0, 1, 0⟩
          (modelScoresOf [0, 1, 2, 3, 4, 5, 6, 7, 8]))).1
        (runnerUpEntry (finalScores ⟨0, 1, 0⟩
          (modelScoresOf [0, 1, 2, 3, 4, 5, 6, 7, 8]))).1 ∧
    confidence
        (bestEntry (finalScores ⟨0, 1, 0⟩
          (modelScoresOf [0, 1, 2, 3, 4, 5, 6, 7, 8]))).1
        (runnerUpEntry (finalScores ⟨0, 1, 0⟩
          (modelScoresOf [0, 1, 2, 3, 4, 5, 6, 7, 8]))).1 ≤ 99 := by
  apply confirmed_confidence_bounds [0, 1, 2, 3, 4, 5, 6, 7, 8] ⟨0, 1, 0⟩
    (by norm_num) (by norm_num) (by norm_num)
  have hfs : finalScores ⟨0, 1, 0⟩ (modelScoresOf [0, 1, 2, 3, 4, 5, 6, 7, 8])
      = fun i => getRecencyScores [0, 1, 2, 3, 4, 5, 6, 7, 8] i := by
    funext i
    simp [finalScores, modelScoresOf]
  have hlen : ([0, 1, 2, 3, 4, 5, 6, 7, 8] : List (Fin 10)).length = 9 := by
    decide
  have escore : ∀ (k : Fin 10) (j : ℕ),
      lastIdx [0, 1, 2, 3, 4, 5, 6, 7, 8] k = some j →
      getRecencyScores [0, 1, 2, 3, 4, 5, 6, 7, 8] k = ((8 : ℤ) - j : ℤ) := by
    intro k j hj
    simp only [getRecencyScores, hj, hlen]
    norm_num
  have hmap : (List.finRange 10).map
      (fun i => (getRecencyScores [0, 1, 2, 3, 4, 5, 6, 7, 8] i, i))
      = [((8 : ℚ), (0 : Fin 10)), (7, 1), (6, 2), (5, 3), (4, 4), (3, 5),
          (2, 6), (1, 7), (0, 8), (100, 9)] := by
    rw [show List.finRange 10 = [0, 1, 2, 3, 4, 5, 6, 7, 8, 9] from by decide]
    simp only [List.map]
    rw [escore 0 0 (by decide), escore 1 1 (by decide), escore 2 2 (by decide),
      escore 3 3 (by decide), escore 4 4 (by decide), escore 5 5 (by decide),
      escore 6 6 (by decide), escore 7 7 (by decide), escore 8 8 (by decide)]
    rw [show getRecencyScores [0, 1, 2, 3, 4, 5, 6, 7, 8] 9 = 100 from by
      simp [getRecencyScores, ANALYSIS_TICKS,
        show lastIdx [0, 1, 2, 3, 4, 5, 6, 7, 8] 9 = none from by decide]]
    norm_num
  have hsorted : sortedScores
      (finalScores ⟨0, 1, 0⟩ (modelScoresOf [0, 1, 2, 3, 4, 5, 6, 7, 8]))
      = [((100 : ℚ), (9 : Fin 10)), (8, 0), (7, 1), (6, 2), (5, 3), (4, 4),
          (3, 5), (2, 6), (1, 7), (0, 8)] := by
    rw [sortedScores, hfs, hmap]
    norm_num [List.insertionSort, List.orderedInsert]
  rw [certaintyConfirmed, bestEntry, runnerUpEntry, hsorted]
  norm_num [CERTAINTY_THRESHOLD]

end Medusir
